import Mathlib

/-!
# Wordlist generation engine: a shallow embedding

This file embeds the wordlist generation engine of the Password-Strength-Analyzer
repository (`wordlist_generator.py`, class `WordlistGenerator`) as executable Lean
definitions, and proves or refutes the specification claims about it.

Python strings are modelled as Lean `String` (a list of unicode code points, which
matches Python's sequence-of-code-points view).  The character-level helpers
(`lower`, `upper`, `capitalize`, `isdigit`, `islower`, `strip`, `\w`) are modelled
with ASCII semantics, which is faithful on the ASCII data this generator
manipulates (all of its configuration alphabets are ASCII).

Two sources of runtime nondeterminism in the Python code are made explicit
parameters of the embedding:
* `WordlistGenerator.__init__` reads `datetime.now().year`; the embedding takes the
  construction-time year `cy` as an argument.
* `_generate_combinations` ends with `set(list(combinations)[:1000])`, whose result
  depends on the interpreter's unordered-set iteration order; the embedding takes
  the enumeration of the combination set as a list argument, and provides one
  canonical choice (`canonicalComb`) for concrete evaluation.
-/

set_option maxRecDepth 100000

namespace WG

/-! ## Python string helpers (ASCII semantics) -/

/-- `str.lower()`. -/
def pyLower (s : String) : String := String.mk (s.data.map Char.toLower)

/-- `str.upper()`. -/
def pyUpper (s : String) : String := String.mk (s.data.map Char.toUpper)

/-- `str.capitalize()` on a list of characters: first character upper-cased,
all remaining characters lower-cased. -/
def capList : List Char → List Char
  | [] => []
  | c :: cs => c.toUpper :: cs.map Char.toLower

/-- `str.capitalize()`. -/
def pyCapitalize (s : String) : String := String.mk (capList s.data)

/-- `str.isdigit()`: nonempty and every character a digit. -/
def pyIsDigit (s : String) : Bool := !s.data.isEmpty && s.data.all Char.isDigit

/-- `str.islower()`: at least one cased character and no upper-case character
(for ASCII, cased characters are exactly the letters). -/
def pyIsLower (s : String) : Bool := s.data.any Char.isAlpha && !s.data.any Char.isUpper

/-- A `\w` word character: alphanumeric or underscore. -/
def isWordChar (c : Char) : Bool := c.isAlphanum || c == '_'

/-- `re.sub(r'[^\w]', '', word.lower())`: lower-case, then drop non-word characters. -/
def cleanWord (w : String) : String := String.mk ((pyLower w).data.filter isWordChar)

/-- `str.strip()`: remove leading and trailing whitespace. -/
def pyStrip (s : String) : String :=
  String.mk (((s.data.dropWhile Char.isWhitespace).reverse.dropWhile Char.isWhitespace).reverse)

/-- Substring test, `needle in hay` on Python strings. -/
def isPreOf : List Char → List Char → Bool
  | [], _ => true
  | _ :: _, [] => false
  | a :: as, b :: bs => a == b && isPreOf as bs

/-- Helper for `isSubstr`: test `n` against every suffix of the haystack. -/
def isSubAux (n : List Char) : List Char → Bool
  | [] => isPreOf n []
  | c :: rest => isPreOf n (c :: rest) || isSubAux n rest

/-- Python `needle in hay` substring containment. -/
def isSubstr (needle hay : String) : Bool := isSubAux needle.data hay.data

/-! ## Static configuration of `WordlistGenerator.__init__` -/

/-- `self.common_numbers`. -/
def commonNumbers : List String := ["1", "12", "123", "1234", "01", "001", "2024", "2025"]

/-- `self.years`: `str(y)` for `y in range(current_year - 50, current_year + 5)`,
where `current_year` is the construction-time year. -/
def yearsList (cy : Nat) : List String :=
  (List.range 55).map (fun i => toString (cy - 50 + i))

/-- `self.prefixes`. -/
def prefixes : List String := ["", "my", "the", "i", "love"]

/-- `self.suffixes`. -/
def suffixes : List String := ["", "!", "!!", "123", "12", "1", "01", "001", "@", "#"]

/-- `self.leet_substitutions` as the lookup `char in dict` / `dict[char]`. -/
def leetSubs (c : Char) : List Char :=
  if c = 'a' then ['@', '4']
  else if c = 'e' then ['3']
  else if c = 'i' then ['1', '!']
  else if c = 'o' then ['0']
  else if c = 's' then ['5', '$']
  else if c = 't' then ['7']
  else if c = 'l' then ['1']
  else if c = 'g' then ['9']
  else if c = 'b' then ['6']
  else []

/-- `self.leet_substitutions.items()` in dict insertion order (Python 3.7+). -/
def leetTable : List (Char × List Char) :=
  [('a', ['@', '4']), ('e', ['3']), ('i', ['1', '!']), ('o', ['0']),
   ('s', ['5', '$']), ('t', ['7']), ('l', ['1']), ('g', ['9']), ('b', ['6'])]

/-- `self.separators`. -/
def separators : List String := ["", "_", "-", ".", "!", "@", "#"]

/-! ## `_process_dates`: the five date patterns and `re.findall` -/

/-- Greedy candidates for `\d{1,2}` at the current position, longest first
(regex backtracking order). -/
def takeDigits12 : List Char → List (List Char × List Char)
  | [] => []
  | [a] => if a.isDigit then [([a], [])] else []
  | a :: b :: rest =>
    (if a.isDigit && b.isDigit then [([a, b], rest)] else [])
      ++ (if a.isDigit then [([a], b :: rest)] else [])

/-- `\d{4}` at the current position. -/
def takeDigits4 : List Char → Option (List Char × List Char)
  | a :: b :: c :: d :: rest =>
    if a.isDigit && b.isDigit && c.isDigit && d.isDigit then some ([a, b, c, d], rest) else none
  | _ => none

/-- A literal separator character at the current position. -/
def matchSep (sep : Char) : List Char → Option (List Char)
  | c :: rest => if c == sep then some rest else none
  | [] => none

/-- Pattern `(\d{4})` at the current position: one captured group. -/
def matchY (s : List Char) : Option (List String × List Char) :=
  (takeDigits4 s).map (fun p => ([String.mk p.1], p.2))

/-- Pattern `(\d{1,2})sep(\d{1,2})sep(\d{4})` at the current position, with
regex backtracking into the `\d{1,2}` groups. -/
def matchMDY (sep : Char) (s : List Char) : Option (List String × List Char) :=
  (takeDigits12 s).findSome? (fun p1 =>
    (matchSep sep p1.2).bind (fun r1 =>
      (takeDigits12 r1).findSome? (fun p2 =>
        (matchSep sep p2.2).bind (fun r2 =>
          (takeDigits4 r2).map (fun p3 =>
            ([String.mk p1.1, String.mk p2.1, String.mk p3.1], p3.2))))))

/-- Pattern `(\d{4})-(\d{1,2})-(\d{1,2})` at the current position. -/
def matchYMD (s : List Char) : Option (List String × List Char) :=
  (takeDigits4 s).bind (fun p1 =>
    (matchSep '-' p1.2).bind (fun r1 =>
      (takeDigits12 r1).findSome? (fun p2 =>
        (matchSep '-' p2.2).bind (fun r2 =>
          (takeDigits12 r2).findSome? (fun p3 =>
            some ([String.mk p1.1, String.mk p2.1, String.mk p3.1], p3.2))))))

/-- `re.findall` scan: try the matcher at each position, left to right; on a match
collect the captured groups and continue after the matched text (non-overlapping);
on failure advance one character.  The `Nat` fuel starts at the string length and
bounds the number of steps (each step consumes at least one character). -/
def findAllAux (m : List Char → Option (List String × List Char)) :
    Nat → List Char → List String
  | 0, _ => []
  | _, [] => []
  | fuel + 1, c :: rest =>
    match m (c :: rest) with
    | some (caps, r) => caps ++ findAllAux m fuel r
    | none => findAllAux m fuel rest

/-- `re.findall(pattern, s)` with all captured groups flattened in order. -/
def findAll (m : List Char → Option (List String × List Char)) (s : List Char) : List String :=
  findAllAux m s.length s

/-- The five date patterns of `_process_dates`, in source order. -/
def dateFormats : List (List Char → Option (List String × List Char)) :=
  [matchY, matchMDY '/', matchMDY '-', matchYMD, matchMDY '.']

/-- The contribution of one date string: skip if blank after strip, otherwise run
all five patterns over the stripped string and collect all captured groups. -/
def dateWordsOf (d : String) : List String :=
  if (pyStrip d).data.isEmpty then []
  else dateFormats.flatMap (fun m => findAll m (pyStrip d).data)

/-- `_process_dates`: collect pattern captures from every input, then keep only
purely numeric fragments. -/
def processDates (dates : List String) : List String :=
  (dates.flatMap dateWordsOf).filter pyIsDigit

/-! ## `_generate_leet_variations` -/

/-- `itertools.product` over per-character option lists. -/
def charProduct : List (List Char) → List (List Char)
  | [] => [[]]
  | os :: rest => os.flatMap (fun c => (charProduct rest).map (c :: ·))

/-- `str.replace(char, sub)` where `sub` is a single character. -/
def pyReplaceChar (s : String) (c sub : Char) : String :=
  String.mk (s.data.map (fun x => if x == c then sub else x))

/-- `_generate_leet_variations`.  For tokens of length at most 6, the full
cartesian product of per-character options; for longer tokens, one whole-token
replacement per (character, substitute) pair of the substitution table.  Each
variant different from the lower-cased token is emitted together with its
capitalized form.  (Set semantics: the caller deduplicates.) -/
def leetVariations (word : String) : List String :=
  if (pyLower word).data.length ≤ 6 then
    (charProduct ((pyLower word).data.map (fun c => c :: leetSubs c))).flatMap (fun l =>
      if String.mk l ≠ pyLower word then [String.mk l, pyCapitalize (String.mk l)]
      else [])
  else
    leetTable.flatMap (fun p => p.2.flatMap (fun sub =>
      if pyReplaceChar (pyLower word) p.1 sub ≠ pyLower word then
        [pyReplaceChar (pyLower word) p.1 sub,
         pyCapitalize (pyReplaceChar (pyLower word) p.1 sub)]
      else []))

/-! ## `_generate_word_variations` -/

/-- `_generate_word_variations`: identity forms, affix cross-product, numeric
suffixes, optional year suffixes, optional leetspeak; finally every candidate
shorter than 3 characters is discarded.  (Set semantics: the caller
deduplicates.) -/
def wordVariations (word : String) (includeLeet includeYears : Bool) (cy : Nat) :
    List String :=
  let cw := cleanWord word
  if cw = "" then []
  else
    let base := [cw, pyCapitalize cw, pyUpper cw]
    let affixed := prefixes.flatMap (fun p => suffixes.flatMap (fun s =>
      if p ≠ "" ∨ s ≠ "" then [p ++ cw ++ s, p ++ pyCapitalize cw ++ s] else []))
    let numbered := commonNumbers.flatMap (fun n =>
      [cw ++ n, pyCapitalize cw ++ n, n ++ cw])
    let yeared := if includeYears then
      (yearsList cy).flatMap (fun y => [cw ++ y, pyCapitalize cw ++ y]) else []
    let leeted := if includeLeet then leetVariations cw else []
    (base ++ affixed ++ numbered ++ yeared ++ leeted).filter (fun v => 3 ≤ v.length)

/-! ## `_generate_combinations` -/

/-- The strings added for one joined combination: the combination, its capitalized
form, the first 3 common-number suffixes, and (when years are enabled) the first
5 year suffixes. -/
def comboForms (combo : String) (includeYears : Bool) (cy : Nat) : List String :=
  [combo, pyCapitalize combo]
    ++ (commonNumbers.take 3).map (fun n => combo ++ n)
    ++ (if includeYears then ((yearsList cy).take 5).map (fun y => combo ++ y) else [])

/-- The body of the combination loop for one ordered pair of words: skip if
either cleans to empty, otherwise join with every separator. -/
def combPair (w1 w2 : String) (includeYears : Bool) (cy : Nat) : List String :=
  if cleanWord w1 = "" ∨ cleanWord w2 = "" then []
  else separators.flatMap (fun sep =>
    comboForms (cleanWord w1 ++ sep ++ cleanWord w2) includeYears cy)

/-- The multiset of combination candidates built by the nested loops of
`_generate_combinations` (before the set is capped at 1000 entries): every
ordered pair of distinct positions, every separator. -/
def combCandidates (words : List String) (includeYears : Bool) (cy : Nat) :
    List String :=
  if words.length < 2 then []
  else
    words.enum.flatMap (fun p1 => words.enum.flatMap (fun p2 =>
      if p1.1 ≠ p2.1 then combPair p1.2 p2.2 includeYears cy else []))

/-! ## `_prioritize_words` -/

/-- The characters counted by `sum(1 for char in word if char in '@31057!')`. -/
def leetMarkers : List Char := ['@', '3', '1', '0', '5', '7', '!']

/-- `word` ends in one-or-more digits (`re.search(r'\d+$', word)`). -/
def endsDigit (w : String) : Bool :=
  match w.data.getLast? with
  | some c => c.isDigit
  | none => false

/-- `word[0].isupper()`.  (On the empty string Python would raise; the truncator
only ever scores members of the generated wordlist, which are nonempty.) -/
def headUpper (w : String) : Bool :=
  match w.data with
  | c :: _ => c.isUpper
  | [] => false

/-- `word[1:].islower()`. -/
def tailIsLower (w : String) : Bool := pyIsLower (String.mk w.data.tail)

/-- The year loop of `word_score`: `for year in years: if year in word: score += 15;
break`. -/
def yearBonus (years : List String) (w : String) : Nat :=
  match years with
  | [] => 0
  | y :: rest => if isSubstr y w then 15 else yearBonus rest w

/-- `word_score` of `_prioritize_words`.  All summands are nonnegative, so the
score is a natural number; `20 - len(word)` is clamped at 0 exactly as
`max(0, 20 - len(word))` (Nat subtraction). -/
def wordScore (years : List String) (w : String) : Nat :=
  (20 - w.length)
    + (if endsDigit w then 10 else 0)
    + (if headUpper w && tailIsLower w then 5 else 0)
    + yearBonus (years.take 10) w
    + min ((w.data.filter (fun c => c ∈ leetMarkers)).length * 3) 10

/-- Comparison used to model `scored_words.sort(key=lambda x: x[1], reverse=True)`:
a stable sort putting higher scores first.  Python's `list.sort` is a stable merge
sort, and a stable sort is uniquely determined by the total preorder it sorts by,
so `List.mergeSort` with this comparison computes the same list. -/
def scoreGE (years : List String) (a b : String) : Bool :=
  wordScore years b ≤ wordScore years a

/-- `_prioritize_words`: stable-sort descending by score, keep the first
`max_words`. -/
def prioritizeWords (years : List String) (wordlist : List String) (maxWords : Nat) :
    List String :=
  (wordlist.mergeSort (scoreGE years)).take maxWords

/-! ## `generate_wordlist` -/

/-- The keyword arguments of `generate_wordlist`, with their Python defaults. -/
structure GenInput where
  names : List String := []
  dates : List String := []
  pets : List String := []
  interests : List String := []
  include_years : Bool := true
  include_leet : Bool := true
  include_combinations : Bool := true
  max_words : Nat := 10000

/-- The base words: stripped nonempty names, pets and interests, then the
processed date fragments. -/
def baseWords (inp : GenInput) : List String :=
  ((inp.names.map pyStrip).filter (fun w => w ≠ ""))
    ++ ((inp.pets.map pyStrip).filter (fun w => w ≠ ""))
    ++ ((inp.interests.map pyStrip).filter (fun w => w ≠ ""))
    ++ processDates inp.dates

/-- `sorted(list(wordlist))` for a set represented as a list with duplicates:
the lexicographically sorted list of the distinct elements. -/
def sortedDedup (l : List String) : List String :=
  l.dedup.mergeSort (fun a b => decide (a ≤ b))

/-- The aggregated candidate pool (before sorting/deduplication), with the
enumeration `ord` chosen by the runtime for `list(combinations)` made explicit:
the capped combination contribution is the first 1000 entries of `ord`. -/
def aggregateWith (inp : GenInput) (cy : Nat) (ord : List String) : List String :=
  ((baseWords inp).flatMap (fun w => wordVariations w inp.include_leet inp.include_years cy))
    ++ (if inp.include_combinations && !(baseWords inp).isEmpty then ord.take 1000 else [])

/-- `generate_wordlist` with the construction-time year `cy` and the combination
set enumeration `ord` explicit: sort and deduplicate the aggregate, then truncate
via `_prioritize_words` when `max_words` is nonzero and exceeded. -/
def generateWordlistWith (inp : GenInput) (cy : Nat) (ord : List String) : List String :=
  if inp.max_words ≠ 0 ∧ inp.max_words < (sortedDedup (aggregateWith inp cy ord)).length then
    prioritizeWords (yearsList cy) (sortedDedup (aggregateWith inp cy ord)) inp.max_words
  else sortedDedup (aggregateWith inp cy ord)

/-- One concrete enumeration of the combination candidate set (first-occurrence
order is irrelevant: any duplicate-free enumeration of the same set is a
permutation of this one). -/
def canonicalComb (inp : GenInput) (cy : Nat) : List String :=
  (combCandidates ((baseWords inp).take 5) inp.include_years cy).dedup

/-- `generate_wordlist` with the canonical combination enumeration. -/
def generateWordlist (inp : GenInput) (cy : Nat) : List String :=
  generateWordlistWith inp cy (canonicalComb inp cy)

/-! ## `get_wordlist_stats` -/

/-- The values stored in the stats record.  `avg_length` is kept as the exact
rational `sum(lengths) / len(lengths)`; Python additionally rounds this value to
2 decimal places in IEEE-754 arithmetic, a detail no claim depends on. -/
inductive StatVal where
  | nat (n : Nat)
  | rat (q : ℚ)
  | dist (d : List (String × Nat))
deriving DecidableEq

/-- `_analyze_charset_distribution`: bucket counts over the wordlist. -/
def charsetDistribution (wl : List String) : List (String × Nat) :=
  let hasLower := fun (w : String) => w.data.any Char.isLower
  let hasUpper := fun (w : String) => w.data.any Char.isUpper
  let hasDigit := fun (w : String) => w.data.any Char.isDigit
  let hasSymbol := fun (w : String) => w.data.any (fun c => !c.isAlphanum)
  [("lowercase_only", (wl.filter (fun w => hasLower w && !hasUpper w)).length),
   ("uppercase_only", (wl.filter (fun w => hasUpper w && !hasLower w)).length),
   ("mixed_case", (wl.filter (fun w => hasLower w && hasUpper w)).length),
   ("with_numbers", (wl.filter hasDigit).length),
   ("with_symbols", (wl.filter hasSymbol).length)]

/-- `get_wordlist_stats`: the record returned for the empty wordlist carries the
five fields of the early return; the record for a nonempty wordlist carries six
fields.  Modelled as an ordered association list, matching the Python dict
literals. -/
def getWordlistStats (wl : List String) : List (String × StatVal) :=
  if wl.isEmpty then
    [("total_words", .nat 0), ("avg_length", .nat 0), ("min_length", .nat 0),
     ("max_length", .nat 0), ("unique_words", .nat 0)]
  else
    let lengths := wl.map String.length
    [("total_words", .nat wl.length),
     ("avg_length", .rat ((lengths.sum : ℚ) / (lengths.length : ℚ))),
     ("min_length", .nat ((lengths.min?).getD 0)),
     ("max_length", .nat ((lengths.max?).getD 0)),
     ("unique_words", .nat wl.dedup.length),
     ("charset_distribution", .dist (charsetDistribution wl))]

/-! ## Spec-side definitions for refinement comparisons -/

/-- Modelled from the spec wording of the scoring formula (claim C4): the
leet-marker set is `{@, 3, 1, 0, 5, 7}` with no other characters counted, and
the capitalization bonus reads "first character upper-case and all remaining
characters lower-case". -/
def specWordScore (years : List String) (w : String) : Nat :=
  (20 - w.length)
    + (if endsDigit w then 10 else 0)
    + (if headUpper w && w.data.tail.all Char.isLower then 5 else 0)
    + (if (years.take 10).any (fun y => isSubstr y w) then 15 else 0)
    + min ((w.data.filter (fun c => c ∈ ['@', '3', '1', '0', '5', '7'])).length * 3) 10

/-- The amended closed-form scoring formula: as the spec's, but the marker set
additionally contains `!` (the code tests membership in the string `'@31057!'`)
and the capitalization bonus uses Python's `word[1:].islower()` (at least one
letter after the first character and no upper-case letters there). -/
def amendedSpecScore (years : List String) (w : String) : Nat :=
  (20 - w.length)
    + (if endsDigit w then 10 else 0)
    + (if headUpper w && (w.data.tail.any Char.isAlpha && !w.data.tail.any Char.isUpper)
       then 5 else 0)
    + (if (years.take 10).any (fun y => isSubstr y w) then 15 else 0)
    + min ((w.data.filter (fun c => c ∈ ['@', '3', '1', '0', '5', '7', '!'])).length * 3) 10

/-! ## Basic lemmas about the embedding -/

theorem str_eq_of_data {s t : String} (h : s.data = t.data) : s = t :=
  congrArg String.mk h

theorem str_length_data (s : String) : s.length = s.data.length := rfl

theorem capList_length (l : List Char) : (capList l).length = l.length := by
  cases l <;> simp [capList]

theorem pyCapitalize_length (s : String) : (pyCapitalize s).length = s.length := by
  show (capList s.data).length = s.data.length
  exact capList_length s.data

theorem str_length_pos {s : String} (h : s ≠ "") : 0 < s.length := by
  rcases s with ⟨l⟩
  cases l with
  | nil => exact absurd rfl h
  | cons c cs => exact Nat.succ_pos cs.length

theorem mem_sortedDedup {a : String} {l : List String} : a ∈ sortedDedup l ↔ a ∈ l := by
  simp [sortedDedup, List.mem_mergeSort, List.mem_dedup]

theorem length_sortedDedup (l : List String) : (sortedDedup l).length = l.dedup.length := by
  simp [sortedDedup, List.length_mergeSort]

theorem nodup_sortedDedup (l : List String) : (sortedDedup l).Nodup :=
  (List.mergeSort_perm l.dedup _).nodup_iff.mpr (List.nodup_dedup l)

theorem strLE_trans : ∀ (a b c : String),
    decide (a ≤ b) → decide (b ≤ c) → decide (a ≤ c) := by
  intro a b c h1 h2
  simp only [decide_eq_true_eq] at *
  exact le_trans h1 h2

theorem strLE_total : ∀ (a b : String), decide (a ≤ b) || decide (b ≤ a) := by
  intro a b
  simpa using le_total a b

theorem sorted_sortedDedup (l : List String) : (sortedDedup l).Sorted (· ≤ ·) := by
  have h := List.sorted_mergeSort strLE_trans strLE_total l.dedup
  exact h.imp (by simp)

theorem sortedDedup_congr {l₁ l₂ : List String} (h : l₁.Perm l₂) :
    sortedDedup l₁ = sortedDedup l₂ :=
  List.eq_of_perm_of_sorted
    (((List.mergeSort_perm l₁.dedup _).trans h.dedup).trans
      (List.mergeSort_perm l₂.dedup _).symm)
    (sorted_sortedDedup l₁) (sorted_sortedDedup l₂)

theorem dedup_length_le (l : List String) : l.dedup.length ≤ l.length :=
  (List.dedup_sublist l).length_le

theorem generateWordlistWith_of_le {inp : GenInput} {cy : Nat} {ord : List String}
    (h : (aggregateWith inp cy ord).length ≤ inp.max_words) :
    generateWordlistWith inp cy ord = sortedDedup (aggregateWith inp cy ord) := by
  unfold generateWordlistWith
  rw [if_neg]
  rintro ⟨-, hlt⟩
  rw [length_sortedDedup] at hlt
  exact absurd (le_trans (dedup_length_le _) h) (by omega)

theorem generateWordlistWith_zero {inp : GenInput} {cy : Nat} {ord : List String}
    (h : inp.max_words = 0) :
    generateWordlistWith inp cy ord = sortedDedup (aggregateWith inp cy ord) := by
  simp [generateWordlistWith, h]

theorem generateWordlistWith_of_gt {inp : GenInput} {cy : Nat} {ord : List String}
    (h0 : inp.max_words ≠ 0)
    (h : inp.max_words < (aggregateWith inp cy ord).dedup.length) :
    generateWordlistWith inp cy ord
      = prioritizeWords (yearsList cy) (sortedDedup (aggregateWith inp cy ord))
          inp.max_words := by
  unfold generateWordlistWith
  rw [if_pos]
  exact ⟨h0, by rwa [length_sortedDedup]⟩

theorem mem_of_mem_generateWordlistWith {inp : GenInput} {cy : Nat} {ord : List String}
    {w : String} (h : w ∈ generateWordlistWith inp cy ord) :
    w ∈ aggregateWith inp cy ord := by
  unfold generateWordlistWith at h
  split at h
  · simp only [prioritizeWords] at h
    have h2 := List.take_subset _ _ h
    rw [List.mem_mergeSort] at h2
    exact mem_sortedDedup.mp h2
  · exact mem_sortedDedup.mp h

theorem mem_aggregateWith_cases {inp : GenInput} {cy : Nat} {ord : List String}
    {w : String} (h : w ∈ aggregateWith inp cy ord) :
    (∃ b ∈ baseWords inp, w ∈ wordVariations b inp.include_leet inp.include_years cy)
      ∨ (inp.include_combinations = true ∧ w ∈ ord.take 1000) := by
  simp only [aggregateWith, List.mem_append, List.mem_flatMap] at h
  rcases h with h | h
  · exact Or.inl h
  · right
    split at h
    · rename_i hc
      simp only [Bool.and_eq_true] at hc
      exact ⟨hc.1, h⟩
    · simp at h

theorem wordVariations_length {w : String} {il iy : Bool} {cy : Nat} {v : String}
    (h : v ∈ wordVariations w il iy cy) : 3 ≤ v.length := by
  unfold wordVariations at h
  rcases Decidable.em (cleanWord w = "") with hcw | hcw
  · rw [if_pos hcw] at h
    simp at h
  · rw [if_neg hcw] at h
    simp only [List.mem_filter] at h
    simpa using h.2

theorem comboForms_length {c : String} {iy : Bool} {cy : Nat} {v : String}
    (h : v ∈ comboForms c iy cy) : c.length ≤ v.length := by
  unfold comboForms at h
  rcases List.mem_append.mp h with h1 | h2
  · rcases List.mem_append.mp h1 with h0 | hn
    · simp only [List.mem_cons, List.not_mem_nil, or_false] at h0
      rcases h0 with rfl | rfl
      · exact le_refl _
      · rw [pyCapitalize_length]
    · obtain ⟨n, -, rfl⟩ := List.mem_map.mp hn
      simp
  · split at h2
    · obtain ⟨y, -, rfl⟩ := List.mem_map.mp h2
      simp
    · simp at h2

theorem combPair_length {w1 w2 : String} {iy : Bool} {cy : Nat} {v : String}
    (h : v ∈ combPair w1 w2 iy cy) : 2 ≤ v.length := by
  unfold combPair at h
  split at h
  · simp at h
  · rename_i hne
    push_neg at hne
    simp only [List.mem_flatMap] at h
    obtain ⟨sep, -, hv⟩ := h
    have hlen := comboForms_length hv
    have h1 := str_length_pos hne.1
    have h2 := str_length_pos hne.2
    simp only [String.length_append] at hlen
    omega

theorem combCandidates_length {ws : List String} {iy : Bool} {cy : Nat} {v : String}
    (h : v ∈ combCandidates ws iy cy) : 2 ≤ v.length := by
  unfold combCandidates at h
  split at h
  · simp at h
  · simp only [List.mem_flatMap] at h
    obtain ⟨p1, -, p2, -, hv⟩ := h
    split at hv
    · exact combPair_length hv
    · simp at hv

theorem yearBonus_eq (l : List String) (w : String) :
    yearBonus l w = if l.any (fun y => isSubstr y w) then 15 else 0 := by
  induction l with
  | nil => rfl
  | cons y rest ih =>
    unfold yearBonus
    cases h : isSubstr y w with
    | true => simp [h]
    | false => simp [h, ih]

theorem scoreGE_trans (years : List String) : ∀ (a b c : String),
    scoreGE years a b → scoreGE years b c → scoreGE years a c := by
  intro a b c h1 h2
  simp only [scoreGE, decide_eq_true_eq] at *
  omega

theorem scoreGE_total (years : List String) : ∀ (a b : String),
    scoreGE years a b || scoreGE years b a := by
  intro a b
  simp only [scoreGE, Bool.or_eq_true, decide_eq_true_eq]
  omega

theorem pair_take_of_sublist {α : Type} {v w : α} :
    ∀ {l : List α} {m : Nat}, l.Nodup → [v, w].Sublist l →
      w ∈ l.take m → v ∈ l.take m := by
  intro l
  induction l with
  | nil =>
    intro m _ _ hw
    simp at hw
  | cons x rest ih =>
    intro m hnd hsub hw
    cases m with
    | zero => simp at hw
    | succ k =>
      rw [List.take_succ_cons] at hw ⊢
      cases hsub with
      | cons₂ _ h => exact List.mem_cons_self _ _
      | cons _ h =>
        rcases List.mem_cons.mp hw with rfl | hw2
        · have hwr : w ∈ rest := h.subset (by simp)
          exact absurd hwr (List.nodup_cons.mp hnd).1
        · exact List.mem_cons_of_mem _ (ih (List.nodup_cons.mp hnd).2 h hw2)

/-! ## Lemmas for the leetspeak expander -/

theorem map_eq_self_mem {α : Type} {f : α → α} :
    ∀ {l : List α}, l.map f = l → ∀ c ∈ l, f c = c := by
  intro l
  induction l with
  | nil =>
    intro _ c hc
    simp at hc
  | cons x xs ih =>
    intro h c hc
    simp only [List.map_cons, List.cons.injEq] at h
    rcases List.mem_cons.mp hc with rfl | hc2
    · exact h.1
    · exact ih h.2 c hc2

/-- Every leetspeak substitute character is case-fixed (neither `toLower` nor
`toUpper` changes it) and differs from the letter it replaces. -/
theorem leetSubs_spec (c s : Char) (hs : s ∈ leetSubs c) :
    s.toLower = s ∧ s.toUpper = s ∧ s ≠ c := by
  unfold leetSubs at hs
  split_ifs at hs with h1 h2 h3 h4 h5 h6 h7 h8 h9 <;>
    simp only [List.mem_cons, List.not_mem_nil, or_false] at hs <;>
    subst_vars <;>
    first
      | (rcases hs with rfl | rfl <;> decide)
      | decide

theorem leetTable_sub : ∀ p ∈ leetTable, ∀ s ∈ p.2, s ∈ leetSubs p.1 := by decide

theorem charProduct_mem : ∀ {opts : List (List Char)} {l : List Char},
    l ∈ charProduct opts → List.Forall₂ (fun c os => c ∈ os) l opts := by
  intro opts
  induction opts with
  | nil =>
    intro l hl
    simp only [charProduct, List.mem_singleton] at hl
    subst hl
    exact List.Forall₂.nil
  | cons os rest ih =>
    intro l hl
    simp only [charProduct, List.mem_flatMap, List.mem_map] at hl
    obtain ⟨c, hc, t, ht, rfl⟩ := hl
    exact List.Forall₂.cons hc (ih ht)

theorem product_rel {wd u : List Char}
    (h : u ∈ charProduct (wd.map (fun c => c :: leetSubs c))) :
    List.Forall₂ (fun a b => a = b ∨ a ∈ leetSubs b) u wd := by
  have h2 := charProduct_mem h
  rw [List.forall₂_map_right_iff] at h2
  exact h2.imp (fun a b hab => by simpa using hab)

theorem replace_rel (wd : List Char) (key sub : Char) (hsub : sub ∈ leetSubs key) :
    List.Forall₂ (fun a b => a = b ∨ a ∈ leetSubs b)
      (wd.map (fun x => if x == key then sub else x)) wd := by
  induction wd with
  | nil => exact List.Forall₂.nil
  | cons c cs ih =>
    refine List.Forall₂.cons ?_ ih
    by_cases h : c = key
    · subst h
      simp [hsub]
    · simp [h]

/-- If a string pointwise related to an all-lower-case-fixed string by the
substitution relation lower-cases to it, the two are already equal: the
substitute characters are case-fixed and never equal to the original letter. -/
theorem eq_of_rel_toLower : ∀ {u wd : List Char},
    List.Forall₂ (fun a b => a = b ∨ a ∈ leetSubs b) u wd →
    (∀ c ∈ wd, c.toLower = c) → u.map Char.toLower = wd → u = wd := by
  intro u wd hrel
  induction hrel with
  | nil =>
    intro _ _
    rfl
  | @cons a b u2 wd2 hab hrest ih =>
    intro hlc hmap
    simp only [List.map_cons, List.cons.injEq] at hmap
    obtain ⟨h1, h2⟩ := hmap
    have hb : a = b := by
      rcases hab with rfl | hsubs
      · rfl
      · have spec := leetSubs_spec b a hsubs
        exact absurd (spec.1.symm.trans h1) spec.2.2
    subst hb
    have ht := ih (fun c hc => hlc c (List.mem_cons_of_mem _ hc)) h2
    rw [ht]

/-- The capitalized form of a variant that differs from the (lower-case-fixed)
token also differs from the token. -/
theorem capList_ne {u wd : List Char}
    (hrel : List.Forall₂ (fun a b => a = b ∨ a ∈ leetSubs b) u wd)
    (hlc : ∀ c ∈ wd, c.toLower = c) (hne : u ≠ wd) : capList u ≠ wd := by
  cases hrel with
  | nil => exact absurd rfl hne
  | @cons a b u2 wd2 hab hrest =>
    intro heq
    simp only [capList, List.cons.injEq] at heq
    obtain ⟨h1, h2⟩ := heq
    rcases hab with rfl | hsubs
    · have ht : u2 = wd2 :=
        eq_of_rel_toLower hrest (fun c hc => hlc c (List.mem_cons_of_mem _ hc)) h2
      exact hne (by rw [ht])
    · have spec := leetSubs_spec b a hsubs
      exact absurd (spec.2.1.symm.trans h1) spec.2.2

/-! ## Claims -/

/-- C10: a zero `max_words` ceiling skips truncation entirely and returns the
full sorted deduplicated wordlist, whatever its size. -/
theorem C10_zero_ceiling_full_list (inp : GenInput) (cy : Nat)
    (h : inp.max_words = 0) :
    generateWordlist inp cy
      = sortedDedup (aggregateWith inp cy (canonicalComb inp cy)) :=
  generateWordlistWith_zero h

theorem C10_zero_ceiling_full_list_witness :
    (GenInput.mk ["buddy"] [] [] [] true true true 0).max_words = 0
    ∧ generateWordlist (GenInput.mk ["buddy"] [] [] [] true true true 0) 2025
        = sortedDedup (aggregateWith (GenInput.mk ["buddy"] [] [] [] true true true 0) 2025
            (canonicalComb (GenInput.mk ["buddy"] [] [] [] true true true 0) 2025)) :=
  ⟨rfl, C10_zero_ceiling_full_list (GenInput.mk ["buddy"] [] [] [] true true true 0) 2025 rfl⟩

/-- C5 counterexample: on the empty wordlist, `get_wordlist_stats` returns a
record without the `charset_distribution` field, so the claim fails as stated. -/
theorem C5_counterexample_empty_stats :
    "charset_distribution" ∉ (getWordlistStats []).map Prod.fst := by decide

/-- C5 (amended): for every nonempty wordlist the stats record carries all six
fields of the output contract; for the empty wordlist it carries only the first
five (`charset_distribution` is missing). -/
theorem C5_stats_fields (wl : List String) (h : wl ≠ []) :
    (getWordlistStats wl).map Prod.fst
      = ["total_words", "avg_length", "min_length", "max_length", "unique_words",
         "charset_distribution"]
    ∧ (getWordlistStats []).map Prod.fst
      = ["total_words", "avg_length", "min_length", "max_length", "unique_words"] := by
  refine ⟨?_, rfl⟩
  cases wl with
  | nil => exact absurd rfl h
  | cons x xs => rfl

theorem C5_stats_fields_witness :
    (["abc"] ≠ ([] : List String))
    ∧ (getWordlistStats ["abc"]).map Prod.fst
        = ["total_words", "avg_length", "min_length", "max_length", "unique_words",
           "charset_distribution"] :=
  ⟨by decide, (C5_stats_fields ["abc"] (by decide)).1⟩

/-- C8 counterexample: the seed `"_"` contains no alphanumeric character, yet
normalization keeps the underscore (`\w` also matches `_`), the token is not
dropped, and it does contribute words to the result. -/
theorem C8_counterexample_underscore :
    cleanWord "_" ≠ ""
    ∧ "my_!" ∈ generateWordlist
        { names := ["_"], include_years := false, include_leet := false,
          include_combinations := false } 2025 := by
  refine ⟨by decide, ?_⟩
  rw [generateWordlist, generateWordlistWith_of_le (by decide), mem_sortedDedup]
  decide

/-- C8 (amended): a raw seed string containing no word characters (alphanumeric
or underscore) normalizes to the empty string, and such a token contributes no
variations. -/
theorem C8_no_word_chars (w : String) (il iy : Bool) (cy : Nat)
    (h : ∀ c ∈ w.data, isWordChar c.toLower = false) :
    cleanWord w = "" ∧ wordVariations w il iy cy = [] := by
  have hcw : cleanWord w = "" := by
    unfold cleanWord pyLower
    have hf : (w.data.map Char.toLower).filter isWordChar = [] := by
      rw [List.filter_eq_nil_iff]
      intro a ha
      obtain ⟨c, hc, rfl⟩ := List.mem_map.mp ha
      simp [h c hc]
    rw [hf]
  refine ⟨hcw, ?_⟩
  unfold wordVariations
  rw [if_pos hcw]

theorem C8_no_word_chars_witness :
    (∀ c ∈ ("!!!" : String).data, isWordChar c.toLower = false)
    ∧ (cleanWord "!!!" = "" ∧ wordVariations "!!!" true true 2025 = []) :=
  ⟨by decide, C8_no_word_chars "!!!" true true 2025 (by decide)⟩

/-- C9: `_process_dates` returns only purely numeric fragments, and an input
string on which none of the five date patterns finds a match contributes no
output elements.  (The embedding is total, mirroring the fact that the Python
code raises no errors on any input.) -/
theorem C9_process_dates (dates : List String) :
    (∀ s ∈ processDates dates, pyIsDigit s = true)
    ∧ (∀ d : String, (∀ m ∈ dateFormats, findAll m (pyStrip d).data = []) →
        dateWordsOf d = []) := by
  constructor
  · intro s hs
    exact (List.mem_filter.mp hs).2
  · intro d hd
    unfold dateWordsOf
    split
    · rfl
    · rw [List.flatMap_eq_nil_iff]
      exact hd

theorem C9_process_dates_witness :
    ("12" ∈ processDates ["12/15/1990"])
    ∧ pyIsDigit "12" = true :=
  ⟨by decide, (C9_process_dates ["12/15/1990"]).1 "12" (by decide)⟩

/-- C1 counterexample: with seeds `"a"` and `"b"` and combinations enabled, the
result contains the two-character word `"ab"`, violating the claimed length-3
invariant. -/
theorem C1_counterexample_short_combo :
    "ab" ∈ generateWordlist { names := ["a", "b"] } 2025
    ∧ ("ab" : String).length < 3 := by
  refine ⟨?_, by decide⟩
  rw [generateWordlist, generateWordlistWith_of_le (by decide), mem_sortedDedup]
  decide

/-- C1 (amended): every word in any result of `generate_wordlist` has length at
least 2, and when `include_combinations` is false every word has length at
least 3 (the per-token variation filter discards words shorter than 3, but the
combination synthesizer applies no such filter and can join two one-character
tokens with the empty separator). -/
theorem C1_length_invariant (inp : GenInput) (cy : Nat) (w : String)
    (h : w ∈ generateWordlist inp cy) :
    2 ≤ w.length ∧ (inp.include_combinations = false → 3 ≤ w.length) := by
  have hmem := mem_aggregateWith_cases (mem_of_mem_generateWordlistWith h)
  rcases hmem with ⟨b, -, hv⟩ | ⟨hc, hmem⟩
  · have h3 := wordVariations_length hv
    exact ⟨by omega, fun _ => h3⟩
  · have hw : w ∈ canonicalComb inp cy := List.take_subset _ _ hmem
    have hcc : w ∈ combCandidates ((baseWords inp).take 5) inp.include_years cy :=
      List.mem_dedup.mp hw
    refine ⟨combCandidates_length hcc, fun hfalse => ?_⟩
    rw [hfalse] at hc
    cases hc

/-- C2 counterexample: the year window is read from the wall clock at generator
construction (`datetime.now().year` in `__init__`), not from an injected
reference, so with the same seed lists, flags and `max_words`, calls made on
generators constructed in different years return different lists. -/
theorem C2_counterexample_wall_clock :
    generateWordlist
        { names := ["buddy"], include_leet := false, include_combinations := false } 2024
      ≠ generateWordlist
        { names := ["buddy"], include_leet := false, include_combinations := false } 2025 := by
  intro heq
  have h1 : "buddy2029" ∈ generateWordlist
      { names := ["buddy"], include_leet := false, include_combinations := false } 2025 := by
    rw [generateWordlist, generateWordlistWith_of_le (by decide), mem_sortedDedup]
    decide
  have h2 : "buddy2029" ∉ generateWordlist
      { names := ["buddy"], include_leet := false, include_combinations := false } 2024 := by
    rw [generateWordlist, generateWordlistWith_of_le (by decide), mem_sortedDedup]
    decide
  rw [heq] at h2
  exact h2 h1

/-- C2 (amended): with the construction-time year also held fixed, two calls
with identical inputs produce identical ordered results provided the
combination candidate set does not exceed the 1000-entry cap: below the cap the
result is independent of the unordered-set iteration order used by
`list(combinations)[:1000]` (above the cap, which 1000 entries survive depends
on that order, and the year window itself comes from the wall clock, not from
an injected reference). -/
theorem C2_determinism_below_cap (inp : GenInput) (cy : Nat) (ord1 ord2 : List String)
    (h1 : ord1.Nodup) (h2 : ord2.Nodup)
    (hm1 : ∀ s, s ∈ ord1 ↔ s ∈ combCandidates ((baseWords inp).take 5) inp.include_years cy)
    (hm2 : ∀ s, s ∈ ord2 ↔ s ∈ combCandidates ((baseWords inp).take 5) inp.include_years cy)
    (hlen : ord1.length ≤ 1000) :
    generateWordlistWith inp cy ord1 = generateWordlistWith inp cy ord2 := by
  have hperm : ord1.Perm ord2 := by
    rw [List.perm_ext_iff_of_nodup h1 h2]
    intro a
    rw [hm1 a, hm2 a]
  have hlen2 : ord2.length ≤ 1000 := by
    rw [← hperm.length_eq]
    exact hlen
  have hagg : (aggregateWith inp cy ord1).Perm (aggregateWith inp cy ord2) := by
    unfold aggregateWith
    apply List.Perm.append_left
    split
    · rw [List.take_of_length_le hlen, List.take_of_length_le hlen2]
      exact hperm
    · exact List.Perm.refl _
  have hsd : sortedDedup (aggregateWith inp cy ord1)
      = sortedDedup (aggregateWith inp cy ord2) := sortedDedup_congr hagg
  unfold generateWordlistWith
  rw [hsd]

theorem C2_determinism_below_cap_witness :
    ((canonicalComb { names := ["buddy"] } 2025).Nodup
      ∧ (canonicalComb { names := ["buddy"] } 2025).length ≤ 1000)
    ∧ generateWordlistWith { names := ["buddy"] } 2025
          (canonicalComb { names := ["buddy"] } 2025)
        = generateWordlistWith { names := ["buddy"] } 2025
          (canonicalComb { names := ["buddy"] } 2025) :=
  ⟨⟨List.nodup_dedup _, by decide⟩,
   C2_determinism_below_cap { names := ["buddy"] } 2025 _ _
     (List.nodup_dedup _) (List.nodup_dedup _)
     (fun _ => List.mem_dedup) (fun _ => List.mem_dedup) (by decide)⟩

/-- C4 counterexample: the truncator's marker string is `'@31057!'`, so `!`
counts as a leet marker, and the capitalization bonus uses Python's
`word[1:].islower()`; on the word `"Abc!"` the code computes 24 while the
spec formula of the claim computes 16. -/
theorem C4_counterexample_score_formula :
    wordScore (yearsList 2025) "Abc!" ≠ specWordScore (yearsList 2025) "Abc!" := by
  decide

/-- C4 (amended): the truncator's score equals
`max(0, 20 - len) + (10 if ends in digits) + (5 if first char upper and the rest
has a letter and no upper-case letter) + (15 if a top-10 window year occurs as a
substring, once) + min(3 * count of characters in {@,3,1,0,5,7,!}, 10)`. -/
theorem C4_score_formula (years : List String) (w : String) :
    wordScore years w = amendedSpecScore years w := by
  unfold wordScore amendedSpecScore
  rw [yearBonus_eq]
  rfl

/-- C3: when the sorted deduplicated aggregate strictly exceeds a positive
`max_words`, `generate_wordlist` returns exactly `max_words` words, every
retained word scores at least as high as every discarded word, and among
equal-scoring words the one appearing earlier in the lexicographically sorted
aggregate is kept whenever the later one is (stability of the descending
sort). -/
theorem C3_truncation (inp : GenInput) (cy : Nat)
    (h0 : 0 < inp.max_words)
    (hgt : inp.max_words
      < (sortedDedup (aggregateWith inp cy (canonicalComb inp cy))).length) :
    (generateWordlist inp cy).length = inp.max_words
    ∧ (∀ w ∈ generateWordlist inp cy,
        ∀ v ∈ sortedDedup (aggregateWith inp cy (canonicalComb inp cy)),
          v ∉ generateWordlist inp cy →
            wordScore (yearsList cy) v ≤ wordScore (yearsList cy) w)
    ∧ (∀ v w : String, wordScore (yearsList cy) v = wordScore (yearsList cy) w →
        [v, w].Sublist (sortedDedup (aggregateWith inp cy (canonicalComb inp cy))) →
        w ∈ generateWordlist inp cy → v ∈ generateWordlist inp cy) := by
  have hgt2 : inp.max_words
      < (aggregateWith inp cy (canonicalComb inp cy)).dedup.length := by
    rwa [length_sortedDedup] at hgt
  have hg : generateWordlist inp cy
      = ((sortedDedup (aggregateWith inp cy (canonicalComb inp cy))).mergeSort
          (scoreGE (yearsList cy))).take inp.max_words := by
    rw [generateWordlist, generateWordlistWith_of_gt (by omega) hgt2]
    rfl
  set agg := sortedDedup (aggregateWith inp cy (canonicalComb inp cy)) with hagg
  set srt := agg.mergeSort (scoreGE (yearsList cy)) with hsrt
  have hlen_srt : srt.length = agg.length := List.length_mergeSort agg
  have hpair := List.sorted_mergeSort (scoreGE_trans (yearsList cy))
    (scoreGE_total (yearsList cy)) agg
  refine ⟨?_, ?_, ?_⟩
  · rw [hg, List.length_take, hlen_srt]
    omega
  · intro w hw v hv hvnot
    rw [hg] at hw hvnot
    have hv_srt : v ∈ srt := List.mem_mergeSort.mpr hv
    have hsplit := List.take_append_drop inp.max_words srt
    have hv2 : v ∈ srt.take inp.max_words ++ srt.drop inp.max_words := by
      rw [hsplit]
      exact hv_srt
    rcases List.mem_append.mp hv2 with hvt | hvd
    · exact absurd hvt hvnot
    · have hpair2 : (srt.take inp.max_words ++ srt.drop inp.max_words).Pairwise
          (fun a b => scoreGE (yearsList cy) a b) := by
        rw [hsplit]
        exact hpair
      have hge := (List.pairwise_append.mp hpair2).2.2 w hw v hvd
      simpa [scoreGE] using hge
  · intro v w hscore hsub hw
    rw [hg] at hw ⊢
    have hvw_srt : [v, w].Sublist srt := by
      apply List.pair_sublist_mergeSort (scoreGE_trans (yearsList cy))
        (scoreGE_total (yearsList cy)) ?_ hsub
      simp [scoreGE, hscore]
    have hnd : srt.Nodup := (List.mergeSort_perm agg _).nodup_iff.mpr (nodup_sortedDedup _)
    exact pair_take_of_sublist hnd hvw_srt hw

theorem C3_truncation_witness :
    (0 < (GenInput.mk ["abc"] [] [] [] false false false 5).max_words
      ∧ (GenInput.mk ["abc"] [] [] [] false false false 5).max_words
          < (sortedDedup (aggregateWith (GenInput.mk ["abc"] [] [] [] false false false 5)
              2025 (canonicalComb (GenInput.mk ["abc"] [] [] [] false false false 5)
                2025))).length)
    ∧ (generateWordlist (GenInput.mk ["abc"] [] [] [] false false false 5) 2025).length
        = (GenInput.mk ["abc"] [] [] [] false false false 5).max_words :=
  ⟨⟨by decide, by rw [length_sortedDedup]; decide⟩,
   (C3_truncation (GenInput.mk ["abc"] [] [] [] false false false 5) 2025 (by decide)
      (by rw [length_sortedDedup]; decide)).1⟩

/-- C6: Scenario B — with seed tokens `"john"` and `"smith"` and combinations
enabled, the result contains `"john_smith"`, its capitalized form
`"John_smith"` (not `"John_Smith"`), and `"john_smith123"`. -/
theorem C6_scenario_b :
    "john_smith" ∈ generateWordlist { names := ["john", "smith"] } 2025
    ∧ "John_smith" ∈ generateWordlist { names := ["john", "smith"] } 2025
    ∧ "john_smith123" ∈ generateWordlist { names := ["john", "smith"] } 2025 := by
  rw [generateWordlist, generateWordlistWith_of_le (by decide)]
  exact ⟨mem_sortedDedup.mpr (by decide), mem_sortedDedup.mpr (by decide),
         mem_sortedDedup.mpr (by decide)⟩

theorem C1_length_invariant_witness :
    ("buddy123" ∈ generateWordlist { names := ["buddy"] } 2025)
    ∧ 2 ≤ ("buddy123" : String).length := by
  have hmem : "buddy123" ∈ generateWordlist { names := ["buddy"] } 2025 := by
    rw [generateWordlist, generateWordlistWith_of_le (by decide), mem_sortedDedup]
    decide
  exact ⟨hmem, (C1_length_invariant { names := ["buddy"] } 2025 "buddy123" hmem).1⟩

/-- C7: for every lower-cased input token, the leetspeak expander never emits a
variant equal to the token itself — on both the cartesian-product path (length
at most 6) and the single-substitution path (length above 6), including every
emitted capitalized form. -/
theorem C7_leet_no_identity (w : String) (hlc : pyLower w = w) :
    ∀ v ∈ leetVariations w, v ≠ w := by
  have hfix : ∀ c ∈ w.data, c.toLower = c :=
    map_eq_self_mem (congrArg String.data hlc)
  intro v hv
  unfold leetVariations at hv
  rw [hlc] at hv
  split at hv
  · simp only [List.mem_flatMap] at hv
    obtain ⟨l, hl, hv⟩ := hv
    split at hv
    · rename_i hne
      have hrel := product_rel hl
      have hlne : l ≠ w.data := fun hh => hne (str_eq_of_data hh)
      simp only [List.mem_cons, List.not_mem_nil, or_false] at hv
      rcases hv with rfl | rfl
      · exact hne
      · intro heq
        exact capList_ne hrel hfix hlne (congrArg String.data heq)
    · simp at hv
  · simp only [List.mem_flatMap] at hv
    obtain ⟨p, hp, sub, hsub, hv⟩ := hv
    split at hv
    · rename_i hne
      have hsubs : sub ∈ leetSubs p.1 := leetTable_sub p hp sub hsub
      have hrel := replace_rel w.data p.1 sub hsubs
      have hlne : (w.data.map (fun x => if x == p.1 then sub else x)) ≠ w.data :=
        fun hh => hne (str_eq_of_data hh)
      simp only [List.mem_cons, List.not_mem_nil, or_false] at hv
      rcases hv with rfl | rfl
      · exact hne
      · intro heq
        exact capList_ne hrel hfix hlne (congrArg String.data heq)
    · simp at hv

theorem C7_leet_no_identity_witness :
    pyLower "smith" = "smith"
    ∧ ∀ v ∈ leetVariations "smith", v ≠ "smith" :=
  ⟨by decide, C7_leet_no_identity "smith" (by decide)⟩

end WG
